import Mathlib

/-!
Shallow embedding of the dynamic gRPC introspection commands of the lens
repository (cmd/dynamic.go, cmd/errors_test.go companion source), together
with proofs about them.  Pure Go helpers become Lean functions; the remote
endpoint, connection state and network round trips are modelled as an
explicit `Remote` value plus a trace of network events; Go `error` returns
become a structured `Outcome`; a Go runtime panic (nil-pointer dereference)
is the distinguished outcome `Outcome.panicked`.
-/

namespace LensCmd

/-! ## Descriptor data model

Mirrors the protoreflect descriptors as used by cmd/dynamic.go: a field is
exactly one of message-typed, enum-typed or scalar (in Go,
`GetMessageType() != nil` iff the wire type is TYPE_MESSAGE, and
`GetEnumType() != nil` iff it is TYPE_ENUM; otherwise the field is scalar
and its wire-type tag name, e.g. "TYPE_STRING", is what
`FieldDescriptorProto_Type_name` yields). -/

inductive FieldKind where
  | message (fqn : String)
  | enum (fqn : String)
  | scalar (tag : String)
deriving DecidableEq

structure Field where
  jsonName : String
  kind : FieldKind
deriving DecidableEq

structure MessageDef where
  fqn : String
  fields : List Field
deriving DecidableEq

structure MethodDef where
  name : String
  inputType : Option MessageDef
  outputType : Option MessageDef
deriving DecidableEq

structure ServiceDef where
  fqn : String
  methods : List MethodDef
deriving DecidableEq

/-- A descriptor held in the `sources` collection of cmd/dynamic.go:
either a message descriptor or an enum descriptor, identified by its
fully qualified name. -/
inductive SrcDesc where
  | msgD (fqn : String)
  | enumD (fqn : String)
deriving DecidableEq

def SrcDesc.fqn : SrcDesc → String
  | .msgD n => n
  | .enumD n => n

/-- The fully qualified names of a `sources` collection, in order. -/
def sourceNames (s : List SrcDesc) : List String :=
  s.map SrcDesc.fqn

/-- Embedding of `sources.Contains` (cmd/dynamic.go): iterate through the
collection and report whether some entry already has the wanted fully
qualified name. -/
def sourcesContains (s : List SrcDesc) (want : String) : Bool :=
  s.any (fun d => d.fqn == want)

/-! ## The descriptor pool

In Go every message descriptor directly references the descriptors of its
field types, so a cyclic type graph is a cyclic pointer structure.  The
embedding breaks the knot with a descriptor pool `env`: message-typed
fields carry the fully qualified name of their message type, and
`envFields` resolves that name to the fields of the named message
(the empty list when the pool has no entry, which cannot happen for
descriptors obtained from protoreflect). -/

def envFields (env : List MessageDef) (n : String) : List Field :=
  match env.find? (fun m => m.fqn == n) with
  | some m => m.fields
  | none => []

def fieldMsgName (f : Field) : Option String :=
  match f.kind with
  | .message n => some n
  | _ => none

/-- The message-type names referenced by a field list. -/
def msgNamesOf (fields : List Field) : List String :=
  fields.filterMap fieldMsgName

/-- An upper bound on the number of fields of any message in the pool. -/
def maxEnvFields (env : List MessageDef) : Nat :=
  env.foldr (fun m acc => max m.fields.length acc) 0

/-- Every message-type name that can ever be appended by a walk that starts
from `fields` over the pool `env`. -/
def allMsgNames (env : List MessageDef) (fields : List Field) : List String :=
  (msgNamesOf fields ++ (env.map (fun m => msgNamesOf m.fields)).flatten).dedup

/-- Fuel that provably suffices for `walkFields` to reach the fixed point
of the Go recursion (see the fuel-independence theorem below). -/
def walkBound (env : List MessageDef) (fields : List Field) : Nat :=
  fields.length + (allMsgNames env fields).length * (maxEnvFields env + 1)

/-- Embedding of the body of `walkMessageType` (cmd/dynamic.go): iterate
over the fields of the current message in declaration order; an unvisited
message type is appended to `s` and then its own fields are walked before
the next field of the current message; an unvisited enum type is appended
without descending; scalar fields contribute nothing.  The Go recursion is
unbounded; here `fuel` decreases on every recursive call, and the
fuel-independence theorem below shows any `fuel ≥ walkBound env fields`
computes the Go fixed point. -/
def walkFields (env : List MessageDef) : Nat → List Field → List SrcDesc → List SrcDesc
  | 0, _, s => s
  | fuel + 1, fields, s =>
    match fields with
    | [] => s
    | f :: fs =>
      match f.kind with
      | .message n =>
        if sourcesContains s n then walkFields env fuel fs s
        else walkFields env fuel fs (walkFields env fuel (envFields env n) (s ++ [.msgD n]))
      | .enum n =>
        if sourcesContains s n then walkFields env fuel fs s
        else walkFields env fuel fs (s ++ [.enumD n])
      | .scalar _ => walkFields env fuel fs s

/-- Embedding of `walkMessageType` (cmd/dynamic.go) at a root message:
walk the fields of the root with sufficient fuel.  The root itself is not
appended, matching the Go function. -/
def walkMessageType (env : List MessageDef) (root : MessageDef) (s : List SrcDesc) : List SrcDesc :=
  walkFields env (walkBound env root.fields) root.fields s

/-! ## Go string helpers

Models of the Go standard-library string functions the commands use:
`strings.Split(s, ".")`, `strings.Join`, `strings.Contains`, and the `%q`
verb of `fmt` (quoting; escaping of exotic characters is not needed for
the names appearing here). -/

/-- Split a character list at every occurrence of the dot character,
matching `strings.Split(s, ".")` piecewise. -/
def splitDotChars : List Char → List (List Char)
  | [] => [[]]
  | c :: cs =>
    if c = '.' then [] :: splitDotChars cs
    else
      match splitDotChars cs with
      | p :: ps => (c :: p) :: ps
      | [] => [[c]]

/-- Model of `strings.Split(s, ".")`. -/
def goSplitDot (s : String) : List String :=
  (splitDotChars s.data).map (fun cs => ⟨cs⟩)

/-- Model of `strings.Join(l, sep)`. -/
def goJoin (sep : String) : List String → String
  | [] => ""
  | [x] => x
  | x :: xs => x ++ sep ++ goJoin sep xs

/-- Model of the `%q` format verb for the plain names used here. -/
def goQuote (s : String) : String := "\"" ++ s ++ "\""

/-- Does the character list `hay` start with `needle`? -/
def charsLeadWith : List Char → List Char → Bool
  | [], _ => true
  | _ :: _, [] => false
  | a :: as, b :: bs => a = b && charsLeadWith as bs

/-- Does `hay` contain `needle` as a contiguous run? -/
def charsContain (hay needle : List Char) : Bool :=
  match hay with
  | [] => charsLeadWith needle []
  | c :: t => charsLeadWith needle (c :: t) || charsContain t needle

/-- Model of `strings.Contains`. -/
def stringsContains (s sub : String) : Bool :=
  charsContain s.data sub.data

/-! ## Error taxonomy

`ChainNotFoundError` and `GRPCServiceNotFoundError` are the structured
errors of the cmd package; every `fmt.Errorf` error is `generic` carrying
its rendered message. -/

inductive CmdErr where
  | generic (msg : String)
  | chainNotFound (requested : String) (chains : List String)
  | grpcSvcNotFound (requested : String) (available : List String)
deriving DecidableEq

/-- Result of running a command body: a normal return value, a returned Go
error, or a Go runtime panic (nil-pointer dereference). -/
inductive Outcome (α : Type) where
  | ok (a : α)
  | err (e : CmdErr)
  | panicked
deriving DecidableEq

/-- One network round trip performed by a command. -/
inductive NetEvent where
  | dial (addr : String)
  | resolveSvc (name : String)
  | listSvcs
deriving DecidableEq

/-- Lexicographic comparison of character lists by code point, matching
the bytewise comparison Go uses for `string` values (identical on the
ASCII names involved). -/
def charsLe : List Char → List Char → Bool
  | [], _ => true
  | _ :: _, [] => false
  | a :: as, b :: bs =>
    if a.toNat < b.toNat then true
    else if b.toNat < a.toNat then false
    else charsLe as bs

/-- Model of the Go `<=` comparison on strings. -/
def strLe (a b : String) : Bool := charsLe a.data b.data

/-- The Go string order as a relation. -/
def strLeRel (a b : String) : Prop := strLe a b = true

instance : DecidableRel strLeRel := fun a b => instDecidableEqBool (strLe a b) true

/-- Model of `sort.Strings`: the sorted permutation under the Go string
order. -/
def sortStrings (l : List String) : List String :=
  List.insertionSort strLeRel l

/-- Embedding of `ChainNotFoundError.Error()`: collect the chain names of
the configuration (an unordered Go map, so the argument order is
arbitrary), sort them, and join with ", ". -/
def chainNotFoundErrorMsg (requested : String) (chainNames : List String) : String :=
  "no chain " ++ goQuote requested ++ " found (available chains: "
    ++ goJoin ", " (sortStrings chainNames) ++ ")"

/-! ## Remote endpoint and reflection session

The remote endpoint, the dial outcome and the reflection client are
external collaborators; a `Remote` value fixes their observable behaviour
for one invocation.  `resolveErr` is a transport-level failure of
`ResolveService` (the "Service not found" failure is produced from
`services` itself, mirroring the grpcreflect client, whose not-found error
message is "Service not found: <name>"). -/

structure Remote where
  dialErr : Option String
  resolveErr : Option String
  listSvcs : Except String (List String)
  services : List ServiceDef
  env : List MessageDef

/-- Embedding of `dialGRPC` (cmd/dynamic.go): on failure the error is
wrapped as `failed to dial gRPC address %q: %w`. -/
def dialGRPC (r : Remote) (addr : String) : Except CmdErr Unit :=
  match r.dialErr with
  | some e => .error (.generic ("failed to dial gRPC address " ++ goQuote addr ++ ": " ++ e))
  | none => .ok ()

/-- Model of `grpcreflect.Client.ResolveService`. -/
def resolveService (r : Remote) (name : String) : Except String ServiceDef :=
  match r.resolveErr with
  | some e => .error e
  | none =>
    match r.services.find? (fun d => d.fqn == name) with
    | some d => .ok d
    | none => .error ("Service not found: " ++ name)

/-! ## Command bodies -/

/-- Embedding of `dynamicListServices` (cmd/dynamic.go), paired with the
trace of network round trips it performs. -/
def dynamicListServices (r : Remote) (addr : String) :
    Outcome (List String) × List NetEvent :=
  match dialGRPC r addr with
  | .error e => (.err e, [.dial addr])
  | .ok _ =>
    match r.listSvcs with
    | .error e => (.err (.generic ("failed to list remote services: " ++ e)), [.dial addr, .listSvcs])
    | .ok svcs => (.ok svcs, [.dial addr, .listSvcs])

/-- Embedding of `dynamicListMethods` (cmd/dynamic.go): resolve the
service; on an error containing "Service not found", re-list the services
and return the enriched `GRPCServiceNotFoundError` when the second call
succeeds, else the standard wrapped resolution error; print the method
names on success. -/
def dynamicListMethods (r : Remote) (addr serviceName : String) :
    Outcome (List String) × List NetEvent :=
  match dialGRPC r addr with
  | .error e => (.err e, [.dial addr])
  | .ok _ =>
    match resolveService r serviceName with
    | .error e =>
      if stringsContains e "Service not found" then
        match r.listSvcs with
        | .ok svcs =>
          (.err (.grpcSvcNotFound serviceName svcs), [.dial addr, .resolveSvc serviceName, .listSvcs])
        | .error _ =>
          (.err (.generic ("failed to resolve service: " ++ e)),
           [.dial addr, .resolveSvc serviceName, .listSvcs])
      else
        (.err (.generic ("failed to resolve service: " ++ e)), [.dial addr, .resolveSvc serviceName])
    | .ok d => (.ok (d.methods.map (fun m => m.name)), [.dial addr, .resolveSvc serviceName])

/-- Name of the TYPE_ENUM wire tag, as produced by
`descriptorpb.FieldDescriptorProto_Type_name`. -/
def typeEnumName : String := "TYPE_ENUM"

/-- Embedding of the per-field branch of `dynamicShowMessages`: when the
wire type is TYPE_MESSAGE the value is the fully qualified name of the
message type of the field; otherwise it is the name of the wire-type tag
(for a scalar field the stored tag, for an enum field "TYPE_ENUM"). -/
def fieldTypeName : FieldKind → String
  | .message n => n
  | .enum _ => typeEnumName
  | .scalar tag => tag

/-- The field summary built by `dynamicShowMessages` for one message type:
external (JSON) field name mapped to the textual type description, in
field order (the Go map is unordered; the association list is its
contents). -/
def summarizeFields (fields : List Field) : List (String × String) :=
  fields.map (fun f => (f.jsonName, fieldTypeName f.kind))

/-- The `msgs` value written by `dynamicShowMessages`. -/
structure ShowMsgsOut where
  input : Option (List (String × String))
  output : Option (List (String × String))
deriving DecidableEq

/-- Embedding of `dynamicShowMessages` (cmd/dynamic.go).  The Go function
dials first, then validates the qualified method name, resolves the
service (with the same not-found enrichment as `dynamicListMethods`),
finds the method, and summarizes its input and output types.
`FindMethodByName` yields nil for an unknown method and the following
`m.GetInputType()` dereferences the nil pointer, hence `panicked`. -/
def dynamicShowMessages (r : Remote) (addr method : String) :
    Outcome ShowMsgsOut × List NetEvent :=
  match dialGRPC r addr with
  | .error e => (.err e, [.dial addr])
  | .ok _ =>
    let serviceParts := goSplitDot method
    if serviceParts.length = 1 then
      (.err (.generic ("invalid method " ++ goQuote method
          ++ ": expected format namespace[.other_namespace...].method")), [.dial addr])
    else
      let serviceName := goJoin "." (serviceParts.take (serviceParts.length - 1))
      match resolveService r serviceName with
      | .error e =>
        if stringsContains e "Service not found" then
          match r.listSvcs with
          | .ok svcs =>
            (.err (.grpcSvcNotFound serviceName svcs),
             [.dial addr, .resolveSvc serviceName, .listSvcs])
          | .error _ =>
            (.err (.generic ("failed to resolve service: " ++ e)),
             [.dial addr, .resolveSvc serviceName, .listSvcs])
        else
          (.err (.generic ("failed to resolve service: " ++ e)),
           [.dial addr, .resolveSvc serviceName])
      | .ok d =>
        let methodName := serviceParts.getLast?.getD ""
        match d.methods.find? (fun m => m.name == methodName) with
        | none => (.panicked, [.dial addr, .resolveSvc serviceName])
        | some m =>
          (.ok { input := m.inputType.map (fun t => summarizeFields t.fields),
                 output := m.outputType.map (fun t => summarizeFields t.fields) },
           [.dial addr, .resolveSvc serviceName])

/-- The list-all-services branch of `dynamicInspect`: resolve every listed
service and print its fully qualified name (the protoprint block after the
`continue` statement is unreachable in the Go source).  When a resolution
fails, the Go code logs `svcDesc.GetFullyQualifiedName()` with a nil
`svcDesc`, a nil-pointer dereference, hence `panicked`. -/
def inspectResolveEach (r : Remote) : List String → Outcome (List String) × List NetEvent
  | [] => (.ok [], [])
  | svc :: rest =>
    match resolveService r svc with
    | .error _ => (.panicked, [.resolveSvc svc])
    | .ok d =>
      match inspectResolveEach r rest with
      | (.ok out, evs) => (.ok (d.fqn :: out), .resolveSvc svc :: evs)
      | (other, evs) => (other, .resolveSvc svc :: evs)

/-- Embedding of `dynamicInspect` (cmd/dynamic.go).  Textual rendering by
the protoprint collaborator is modelled as always succeeding and is elided
from the observable output; the output of the full-method branch is the
name sequence produced by the Type Graph Walker over the input and output
roots.  When resolving the requested service fails, the Go code logs
`svcDesc.GetFullyQualifiedName()` with a nil `svcDesc` before returning,
a nil-pointer dereference, hence `panicked`. -/
def dynamicInspect (r : Remote) (addr serviceName methodName : String) :
    Outcome (List String) × List NetEvent :=
  match dialGRPC r addr with
  | .error e => (.err e, [.dial addr])
  | .ok _ =>
    if serviceName = "" then
      match r.listSvcs with
      | .error e =>
        (.err (.generic ("failed to list remote services: " ++ e)), [.dial addr, .listSvcs])
      | .ok svcs =>
        match inspectResolveEach r svcs with
        | (out, evs) => (out, .dial addr :: .listSvcs :: evs)
    else
      match resolveService r serviceName with
      | .error _ => (.panicked, [.dial addr, .resolveSvc serviceName])
      | .ok d =>
        if methodName = "" then
          (.ok [d.fqn], [.dial addr, .resolveSvc serviceName])
        else
          match d.methods.find? (fun m => m.name == methodName) with
          | none =>
            (.err (.generic ("no method with name " ++ goQuote methodName)),
             [.dial addr, .resolveSvc serviceName])
          | some m =>
            let s1 := match m.inputType with
              | some t => walkMessageType r.env t []
              | none => []
            let s2 := match m.outputType with
              | some t => walkMessageType r.env t s1
              | none => s1
            (.ok (sourceNames s2), [.dial addr, .resolveSvc serviceName])

/-! ## Target resolution (the RunE wrappers)

The cobra layer parses the flags and enforces the declared argument
ranges before RunE runs; the wrappers below include that range check
(cobra rejects an out-of-range invocation with a usage error and performs
no network call) followed by the literal RunE body. -/

structure ChainConfig where
  grpcAddr : String
deriving DecidableEq

/-- The chain registry: an unordered mapping from chain name to its
configuration, given as an association list in arbitrary order. -/
structure Config where
  chains : List (String × ChainConfig)

/-- Resolve the effective gRPC address from the flag and the positional
chain argument, exactly as the shared prelude of the three RunE bodies
does once the exclusivity check has passed: on the chain path the chain is
looked up in the registry and its configured address must be nonempty. -/
def resolveTargetAddr (cfg : Config) (addrFlag chainName : String) : Except CmdErr String :=
  if addrFlag = "" then
    match cfg.chains.find? (fun p => p.1 == chainName) with
    | none => .error (.chainNotFound chainName (cfg.chains.map (fun p => p.1)))
    | some p =>
      if p.2.grpcAddr = "" then
        .error (.generic ("no gRPC address set for chain " ++ goQuote chainName))
      else .ok p.2.grpcAddr
  else .ok addrFlag

/-- Embedding of the `dynamic list-services` RunE body together with the
cobra `RangeArgs(0, 1)` guard. -/
def dynListServicesRunE (cfg : Config) (r : Remote) (addrFlag : String) (args : List String) :
    Outcome (List String) × List NetEvent :=
  if args.length > 1 then
    (.err (.generic "accepts between 0 and 1 arg(s)"), [])
  else if (addrFlag ≠ "" ∧ args.length > 0) ∨ (addrFlag = "" ∧ args.length = 0) then
    (.err (.generic "must provide exactly one of CHAIN_ID or --address flag"), [])
  else
    match resolveTargetAddr cfg addrFlag ((args.head?).getD "") with
    | .error e => (.err e, [])
    | .ok addr => dynamicListServices r addr

/-- Embedding of the `dynamic list-methods` RunE body together with the
cobra `RangeArgs(1, 2)` guard; the service name is the last positional
argument. -/
def dynListMethodsRunE (cfg : Config) (r : Remote) (addrFlag : String) (args : List String) :
    Outcome (List String) × List NetEvent :=
  if args.length < 1 ∨ args.length > 2 then
    (.err (.generic "accepts between 1 and 2 arg(s)"), [])
  else if (addrFlag ≠ "" ∧ args.length > 1) ∨ (addrFlag = "" ∧ args.length = 1) then
    (.err (.generic "must provide exactly one of CHAIN_ID or --address flag"), [])
  else
    match resolveTargetAddr cfg addrFlag ((args.head?).getD "") with
    | .error e => (.err e, [])
    | .ok addr =>
      let path := if args.length > 1 then (args.get? 1).getD "" else (args.head?).getD ""
      dynamicListMethods r addr path

/-- Embedding of the `dynamic show-messages` RunE body together with the
cobra `RangeArgs(1, 2)` guard; the qualified method name is the last
positional argument. -/
def dynShowMessagesRunE (cfg : Config) (r : Remote) (addrFlag : String) (args : List String) :
    Outcome ShowMsgsOut × List NetEvent :=
  if args.length < 1 ∨ args.length > 2 then
    (.err (.generic "accepts between 1 and 2 arg(s)"), [])
  else if (addrFlag ≠ "" ∧ args.length > 1) ∨ (addrFlag = "" ∧ args.length = 1) then
    (.err (.generic "must provide exactly one of CHAIN_ID or --address flag"), [])
  else
    match resolveTargetAddr cfg addrFlag ((args.head?).getD "") with
    | .error e => (.err e, [])
    | .ok addr =>
      let messageName := if args.length > 1 then (args.get? 1).getD "" else (args.head?).getD ""
      dynamicShowMessages r addr messageName

/-! ## Properties of the Type Graph Walker -/

/-- Unfolding equation of `walkFields` at zero fuel. -/
lemma walkFields_zero (env : List MessageDef) (fields : List Field) (s : List SrcDesc) :
    walkFields env 0 fields s = s := rfl

/-- Unfolding equation of `walkFields` at an empty field list. -/
lemma walkFields_nil (env : List MessageDef) (fuel : Nat) (s : List SrcDesc) :
    walkFields env fuel [] s = s := by
  cases fuel <;> rfl

/-- Step equation of `walkFields` at a scalar head field. -/
lemma walkFields_cons_scalar (env : List MessageDef) (fuel : Nat) (f : Field) (fs : List Field)
    (s : List SrcDesc) (tag : String) (hk : f.kind = .scalar tag) :
    walkFields env (fuel + 1) (f :: fs) s = walkFields env fuel fs s := by
  simp [walkFields, hk]

/-- Step equation of `walkFields` at an already visited message field. -/
lemma walkFields_cons_message_mem (env : List MessageDef) (fuel : Nat) (f : Field)
    (fs : List Field) (s : List SrcDesc) (n : String) (hk : f.kind = .message n)
    (hc : sourcesContains s n = true) :
    walkFields env (fuel + 1) (f :: fs) s = walkFields env fuel fs s := by
  simp [walkFields, hk, hc]

/-- Step equation of `walkFields` at an unvisited message field: append,
descend, then continue with the sibling fields. -/
lemma walkFields_cons_message_new (env : List MessageDef) (fuel : Nat) (f : Field)
    (fs : List Field) (s : List SrcDesc) (n : String) (hk : f.kind = .message n)
    (hc : sourcesContains s n = false) :
    walkFields env (fuel + 1) (f :: fs) s
      = walkFields env fuel fs (walkFields env fuel (envFields env n) (s ++ [.msgD n])) := by
  simp [walkFields, hk, hc]

/-- Step equation of `walkFields` at an already visited enum field. -/
lemma walkFields_cons_enum_mem (env : List MessageDef) (fuel : Nat) (f : Field)
    (fs : List Field) (s : List SrcDesc) (n : String) (hk : f.kind = .enum n)
    (hc : sourcesContains s n = true) :
    walkFields env (fuel + 1) (f :: fs) s = walkFields env fuel fs s := by
  simp [walkFields, hk, hc]

/-- Step equation of `walkFields` at an unvisited enum field: append only,
no descent. -/
lemma walkFields_cons_enum_new (env : List MessageDef) (fuel : Nat) (f : Field)
    (fs : List Field) (s : List SrcDesc) (n : String) (hk : f.kind = .enum n)
    (hc : sourcesContains s n = false) :
    walkFields env (fuel + 1) (f :: fs) s = walkFields env fuel fs (s ++ [.enumD n]) := by
  simp [walkFields, hk, hc]

lemma sourceNames_append (s t : List SrcDesc) :
    sourceNames (s ++ t) = sourceNames s ++ sourceNames t :=
  List.map_append _ _ _

lemma sourcesContains_iff (s : List SrcDesc) (n : String) :
    sourcesContains s n = true ↔ n ∈ sourceNames s := by
  simp only [sourcesContains, sourceNames, List.any_eq_true, List.mem_map, beq_iff_eq]

/-- A walk only appends to its `sources` argument, as in the Go code. -/
lemma walkFields_append (env : List MessageDef) :
    ∀ (fuel : Nat) (fields : List Field) (s : List SrcDesc),
      ∃ t, walkFields env fuel fields s = s ++ t := by
  intro fuel
  induction fuel with
  | zero =>
    intro fields s
    exact ⟨[], by simp [walkFields_zero]⟩
  | succ fuel ih =>
    intro fields s
    cases fields with
    | nil => exact ⟨[], by simp [walkFields_nil]⟩
    | cons f fs =>
      cases hk : f.kind with
      | message n =>
        cases hc : sourcesContains s n with
        | true =>
          obtain ⟨t, ht⟩ := ih fs s
          exact ⟨t, by rw [walkFields_cons_message_mem env fuel f fs s n hk hc, ht]⟩
        | false =>
          obtain ⟨t₁, ht₁⟩ := ih (envFields env n) (s ++ [SrcDesc.msgD n])
          obtain ⟨t₂, ht₂⟩ := ih fs ((s ++ [SrcDesc.msgD n]) ++ t₁)
          refine ⟨([SrcDesc.msgD n] ++ t₁) ++ t₂, ?_⟩
          rw [walkFields_cons_message_new env fuel f fs s n hk hc, ht₁, ht₂]
          simp
      | enum n =>
        cases hc : sourcesContains s n with
        | true =>
          obtain ⟨t, ht⟩ := ih fs s
          exact ⟨t, by rw [walkFields_cons_enum_mem env fuel f fs s n hk hc, ht]⟩
        | false =>
          obtain ⟨t₂, ht₂⟩ := ih fs (s ++ [SrcDesc.enumD n])
          refine ⟨[SrcDesc.enumD n] ++ t₂, ?_⟩
          rw [walkFields_cons_enum_new env fuel f fs s n hk hc, ht₂]
          simp
      | scalar tag =>
        obtain ⟨t, ht⟩ := ih fs s
        exact ⟨t, by rw [walkFields_cons_scalar env fuel f fs s tag hk, ht]⟩

/-- The walk preserves the no-duplicate-names invariant: a descriptor is
appended only after `sourcesContains` reported its name absent. -/
lemma walkFields_nodup (env : List MessageDef) :
    ∀ (fuel : Nat) (fields : List Field) (s : List SrcDesc),
      (sourceNames s).Nodup → (sourceNames (walkFields env fuel fields s)).Nodup := by
  intro fuel
  induction fuel with
  | zero =>
    intro fields s h
    simpa [walkFields_zero] using h
  | succ fuel ih =>
    intro fields s h
    cases fields with
    | nil => simpa [walkFields_nil] using h
    | cons f fs =>
      cases hk : f.kind with
      | message n =>
        cases hc : sourcesContains s n with
        | true =>
          rw [walkFields_cons_message_mem env fuel f fs s n hk hc]
          exact ih fs s h
        | false =>
          have hn : n ∉ sourceNames s := by
            rw [← sourcesContains_iff]
            simp [hc]
          have h' : (sourceNames (s ++ [SrcDesc.msgD n])).Nodup := by
            rw [sourceNames_append]
            refine List.Nodup.append h (List.nodup_singleton _) ?_
            intro a ha hb
            simp only [sourceNames, List.map_cons, List.map_nil, List.mem_singleton,
              SrcDesc.fqn] at hb
            exact hn (hb ▸ ha)
          rw [walkFields_cons_message_new env fuel f fs s n hk hc]
          exact ih fs _ (ih (envFields env n) _ h')
      | enum n =>
        cases hc : sourcesContains s n with
        | true =>
          rw [walkFields_cons_enum_mem env fuel f fs s n hk hc]
          exact ih fs s h
        | false =>
          have hn : n ∉ sourceNames s := by
            rw [← sourcesContains_iff]
            simp [hc]
          have h' : (sourceNames (s ++ [SrcDesc.enumD n])).Nodup := by
            rw [sourceNames_append]
            refine List.Nodup.append h (List.nodup_singleton _) ?_
            intro a ha hb
            simp only [sourceNames, List.map_cons, List.map_nil, List.mem_singleton,
              SrcDesc.fqn] at hb
            exact hn (hb ▸ ha)
          rw [walkFields_cons_enum_new env fuel f fs s n hk hc]
          exact ih fs _ h'
      | scalar tag =>
        rw [walkFields_cons_scalar env fuel f fs s tag hk]
        exact ih fs s h

/-- How many of the names in `N` are still missing from the walk state. -/
def missCount (N : List String) (s : List SrcDesc) : Nat :=
  (N.toFinset \ (sourceNames s).toFinset).card

lemma missCount_append_le (N : List String) (s t : List SrcDesc) :
    missCount N (s ++ t) ≤ missCount N s := by
  apply Finset.card_le_card
  apply Finset.sdiff_subset_sdiff (le_refl _)
  rw [sourceNames_append, List.toFinset_append]
  exact Finset.subset_union_left

lemma missCount_append_new (N : List String) (s : List SrcDesc) (d : SrcDesc)
    (hN : d.fqn ∈ N) (hs : d.fqn ∉ sourceNames s) :
    missCount N (s ++ [d]) + 1 = missCount N s := by
  unfold missCount
  rw [sourceNames_append, List.toFinset_append]
  have h1 : (sourceNames [d]).toFinset = {d.fqn} := by
    simp [sourceNames]
  rw [h1]
  have h2 : (sourceNames s).toFinset ∪ {d.fqn} = insert d.fqn (sourceNames s).toFinset := by
    rw [Finset.union_comm]
    exact (Finset.insert_eq _ _).symm
  rw [h2, Finset.sdiff_insert]
  have hmem : d.fqn ∈ N.toFinset \ (sourceNames s).toFinset := by
    rw [Finset.mem_sdiff]
    exact ⟨List.mem_toFinset.mpr hN, fun hx => hs (List.mem_toFinset.mp hx)⟩
  rw [Finset.card_erase_of_mem hmem]
  have : 1 ≤ (N.toFinset \ (sourceNames s).toFinset).card :=
    Finset.card_pos.mpr ⟨d.fqn, hmem⟩
  omega

lemma mem_le_maxEnvFields (env : List MessageDef) (m : MessageDef) (hm : m ∈ env) :
    m.fields.length ≤ maxEnvFields env := by
  induction env with
  | nil => cases hm
  | cons a l ih =>
    rcases List.mem_cons.mp hm with h | h
    · subst h
      exact le_max_left _ _
    · exact le_trans (ih h) (le_max_right _ _)

lemma envFields_length_le (env : List MessageDef) (n : String) :
    (envFields env n).length ≤ maxEnvFields env := by
  unfold envFields
  cases hf : env.find? (fun m => m.fqn == n) with
  | none => simp
  | some m => exact mem_le_maxEnvFields env m (List.mem_of_find?_eq_some hf)

lemma envFields_names_ok (env : List MessageDef) (N : List String)
    (henv : ∀ m ∈ env, ∀ n ∈ msgNamesOf m.fields, n ∈ N) (n : String) :
    ∀ x ∈ msgNamesOf (envFields env n), x ∈ N := by
  unfold envFields
  cases hf : env.find? (fun m => m.fqn == n) with
  | none => simp [msgNamesOf]
  | some m => exact henv m (List.mem_of_find?_eq_some hf)

/-- Key step towards termination: above the miss-count bound, one more
unit of fuel does not change the result of the walk. -/
lemma walkFields_succ_eq (env : List MessageDef) (N : List String) (M : Nat)
    (henv : ∀ m ∈ env, ∀ n ∈ msgNamesOf m.fields, n ∈ N)
    (hM : ∀ n, (envFields env n).length ≤ M) :
    ∀ (fuel : Nat) (fields : List Field) (s : List SrcDesc),
      (∀ n ∈ msgNamesOf fields, n ∈ N) →
      fields.length + missCount N s * (M + 1) ≤ fuel →
      walkFields env (fuel + 1) fields s = walkFields env fuel fields s := by
  intro fuel
  induction fuel with
  | zero =>
    intro fields s hok hb
    have hlen : fields = [] := List.length_eq_zero.mp (by omega)
    subst hlen
    rw [walkFields_nil, walkFields_nil]
  | succ fuel ih =>
    intro fields s hok hb
    cases fields with
    | nil => rw [walkFields_nil, walkFields_nil]
    | cons f fs =>
      have hfs : fs.length + missCount N s * (M + 1) ≤ fuel := by
        simp only [List.length_cons] at hb
        omega
      have hfsok : ∀ n ∈ msgNamesOf fs, n ∈ N := by
        intro n hn
        apply hok n
        rcases List.mem_filterMap.mp hn with ⟨a, ha, hga⟩
        exact List.mem_filterMap.mpr ⟨a, List.mem_cons_of_mem _ ha, hga⟩
      cases hk : f.kind with
      | scalar tag =>
        rw [walkFields_cons_scalar env (fuel + 1) f fs s tag hk,
          walkFields_cons_scalar env fuel f fs s tag hk]
        exact ih fs s hfsok hfs
      | enum n =>
        cases hc : sourcesContains s n with
        | true =>
          rw [walkFields_cons_enum_mem env (fuel + 1) f fs s n hk hc,
            walkFields_cons_enum_mem env fuel f fs s n hk hc]
          exact ih fs s hfsok hfs
        | false =>
          rw [walkFields_cons_enum_new env (fuel + 1) f fs s n hk hc,
            walkFields_cons_enum_new env fuel f fs s n hk hc]
          apply ih fs _ hfsok
          have hle := missCount_append_le N s [SrcDesc.enumD n]
          have hmul := Nat.mul_le_mul_right (M + 1) hle
          omega
      | message n =>
        have hnN : n ∈ N := by
          apply hok n
          exact List.mem_filterMap.mpr
            ⟨f, List.mem_cons_self _ _, by simp [fieldMsgName, hk]⟩
        cases hc : sourcesContains s n with
        | true =>
          rw [walkFields_cons_message_mem env (fuel + 1) f fs s n hk hc,
            walkFields_cons_message_mem env fuel f fs s n hk hc]
          exact ih fs s hfsok hfs
        | false =>
          have hn : n ∉ sourceNames s := by
            rw [← sourcesContains_iff]
            simp [hc]
          have hmiss : missCount N (s ++ [SrcDesc.msgD n]) + 1 = missCount N s :=
            missCount_append_new N s (SrcDesc.msgD n) hnN hn
          rw [← hmiss] at hfs
          have hexp : (missCount N (s ++ [SrcDesc.msgD n]) + 1) * (M + 1)
              = missCount N (s ++ [SrcDesc.msgD n]) * (M + 1) + (M + 1) := by
            ring
          have hinner : walkFields env (fuel + 1) (envFields env n) (s ++ [SrcDesc.msgD n])
              = walkFields env fuel (envFields env n) (s ++ [SrcDesc.msgD n]) := by
            apply ih _ _ (envFields_names_ok env N henv n)
            have hl := hM n
            omega
          have hcont : walkFields env (fuel + 1) fs
                (walkFields env fuel (envFields env n) (s ++ [SrcDesc.msgD n]))
              = walkFields env fuel fs
                (walkFields env fuel (envFields env n) (s ++ [SrcDesc.msgD n])) := by
            apply ih fs _ hfsok
            obtain ⟨t₁, ht₁⟩ := walkFields_append env fuel (envFields env n) (s ++ [SrcDesc.msgD n])
            rw [ht₁]
            have hle := missCount_append_le N (s ++ [SrcDesc.msgD n]) t₁
            have hmul := Nat.mul_le_mul_right (M + 1) hle
            omega
          rw [walkFields_cons_message_new env (fuel + 1) f fs s n hk hc,
            walkFields_cons_message_new env fuel f fs s n hk hc, hinner, hcont]

/-- Above the miss-count bound the walk result no longer depends on the
fuel at all. -/
lemma walkFields_eq_of_le (env : List MessageDef) (N : List String) (M : Nat)
    (henv : ∀ m ∈ env, ∀ n ∈ msgNamesOf m.fields, n ∈ N)
    (hM : ∀ n, (envFields env n).length ≤ M)
    (fields : List Field) (s : List SrcDesc)
    (hok : ∀ n ∈ msgNamesOf fields, n ∈ N) :
    ∀ (d : Nat),
      walkFields env (fields.length + missCount N s * (M + 1) + d) fields s
        = walkFields env (fields.length + missCount N s * (M + 1)) fields s := by
  intro d
  induction d with
  | zero => rfl
  | succ d ihd =>
    have hstep := walkFields_succ_eq env N M henv hM
      (fields.length + missCount N s * (M + 1) + d) fields s hok (by omega)
    calc walkFields env (fields.length + missCount N s * (M + 1) + (d + 1)) fields s
        = walkFields env (fields.length + missCount N s * (M + 1) + d + 1) fields s := by
          congr 1
      _ = walkFields env (fields.length + missCount N s * (M + 1) + d) fields s := hstep
      _ = walkFields env (fields.length + missCount N s * (M + 1)) fields s := ihd

lemma missCount_le_length (N : List String) (s : List SrcDesc) :
    missCount N s ≤ N.length :=
  le_trans (Finset.card_le_card (Finset.sdiff_subset)) N.toFinset_card_le

lemma allMsgNames_fields_ok (env : List MessageDef) (fields : List Field) :
    ∀ n ∈ msgNamesOf fields, n ∈ allMsgNames env fields := by
  intro n hn
  unfold allMsgNames
  rw [List.mem_dedup]
  exact List.mem_append_left _ hn

lemma allMsgNames_env_ok (env : List MessageDef) (fields : List Field) :
    ∀ m ∈ env, ∀ n ∈ msgNamesOf m.fields, n ∈ allMsgNames env fields := by
  intro m hm n hn
  unfold allMsgNames
  rw [List.mem_dedup]
  apply List.mem_append_right
  exact List.mem_flatten.mpr ⟨msgNamesOf m.fields, List.mem_map_of_mem _ hm, hn⟩

/-- Is a field scalar (neither message- nor enum-typed)? -/
def isScalarKind : FieldKind → Bool
  | .scalar _ => true
  | _ => false

/-- A walk over fields that are all scalar appends nothing. -/
lemma walkFields_all_scalar (env : List MessageDef) :
    ∀ (fields : List Field), (∀ f ∈ fields, isScalarKind f.kind = true) →
      ∀ (fuel : Nat) (s : List SrcDesc), walkFields env fuel fields s = s := by
  intro fields
  induction fields with
  | nil =>
    intro _ fuel s
    rw [walkFields_nil]
  | cons f fs ih =>
    intro h fuel s
    cases fuel with
    | zero => rfl
    | succ fuel =>
      have hf := h f (List.mem_cons_self _ _)
      cases hk : f.kind with
      | message n =>
        rw [hk] at hf
        simp [isScalarKind] at hf
      | enum n =>
        rw [hk] at hf
        simp [isScalarKind] at hf
      | scalar tag =>
        rw [walkFields_cons_scalar env fuel f fs s tag hk]
        exact ih (fun g hg => h g (List.mem_cons_of_mem _ hg)) fuel s

/-! ## Concrete descriptor pools used as witnesses -/

/-- A self-referential message: `cyc.A` has a field of type `cyc.A`. -/
def selfRefMsg : MessageDef := ⟨"cyc.A", [⟨"next", .message "cyc.A"⟩]⟩

def selfRefEnv : List MessageDef := [selfRefMsg]

/-- Mutually recursive messages `mut.A` and `mut.B`. -/
def mutualA : MessageDef := ⟨"mut.A", [⟨"b", .message "mut.B"⟩]⟩

def mutualB : MessageDef := ⟨"mut.B", [⟨"a", .message "mut.A"⟩]⟩

def mutualEnv : List MessageDef := [mutualA, mutualB]

/-- A root whose first field leads to a subtree (`ex.B` referencing
`ex.D` and the enum `ex.E`) and whose second field references `ex.C`:
pre-order first-discovery output is `B, D, E, C`, distinct from both
breadth-first (`B, C, D, E`) and append-after-descent (`D, E, B, C`)
orders. -/
def exRoot : MessageDef := ⟨"ex.Root", [⟨"x", .message "ex.B"⟩, ⟨"y", .message "ex.C"⟩]⟩

def exEnv : List MessageDef :=
  [exRoot,
   ⟨"ex.B", [⟨"p", .message "ex.D"⟩, ⟨"q", .enum "ex.E"⟩]⟩,
   ⟨"ex.C", [⟨"r", .scalar "TYPE_STRING"⟩]⟩,
   ⟨"ex.D", []⟩]

/-- A root all of whose fields are scalar. -/
def scalarRoot : MessageDef :=
  ⟨"sc.Root", [⟨"name", .scalar "TYPE_STRING"⟩, ⟨"count", .scalar "TYPE_INT64"⟩]⟩

/-! ## Claim theorems about the Type Graph Walker -/

/-- C2: the sequence produced by the Type Graph Walker never contains two
descriptors with the same fully-qualified name, for every descriptor pool
and every root — including a self-referential message type and mutually
recursive definitions — provided the starting collection itself has no
duplicate names (in the command it starts empty). -/
theorem typeGraphWalker_no_duplicate_names (env : List MessageDef) (root : MessageDef)
    (s : List SrcDesc) (h : (sourceNames s).Nodup) :
    (sourceNames (walkMessageType env root s)).Nodup :=
  walkFields_nodup env _ _ s h

theorem typeGraphWalker_no_duplicate_names_witness :
    (sourceNames ([] : List SrcDesc)).Nodup ∧
      (sourceNames (walkMessageType selfRefEnv selfRefMsg [])).Nodup :=
  ⟨by decide, typeGraphWalker_no_duplicate_names selfRefEnv selfRefMsg [] (by decide)⟩

/-- C3: the Type Graph Walker terminates on every input, including cyclic
type graphs: because each type is appended to the visited sequence before
the walker descends into it and is never expanded twice, the recursion
stabilizes after finitely many expansions.  Formally, the fuel-indexed
walk is constant for every fuel at least the computable bound
`walkBound`, so the unbounded Go recursion reaches this common fixed
point on every input. -/
theorem typeGraphWalker_terminates (env : List MessageDef) (fields : List Field)
    (s : List SrcDesc) (fuel₁ fuel₂ : Nat)
    (h₁ : walkBound env fields ≤ fuel₁) (h₂ : walkBound env fields ≤ fuel₂) :
    walkFields env fuel₁ fields s = walkFields env fuel₂ fields s := by
  have henv := allMsgNames_env_ok env fields
  have hok := allMsgNames_fields_ok env fields
  have hM : ∀ n, (envFields env n).length ≤ maxEnvFields env :=
    fun n => envFields_length_le env n
  have hmul := Nat.mul_le_mul_right (maxEnvFields env + 1)
    (missCount_le_length (allMsgNames env fields) s)
  have hble : fields.length
      + missCount (allMsgNames env fields) s * (maxEnvFields env + 1)
      ≤ walkBound env fields := by
    unfold walkBound
    omega
  have key := walkFields_eq_of_le env (allMsgNames env fields) (maxEnvFields env)
    henv hM fields s hok
  have e₁ : fields.length + missCount (allMsgNames env fields) s * (maxEnvFields env + 1)
      + (fuel₁ - (fields.length
        + missCount (allMsgNames env fields) s * (maxEnvFields env + 1))) = fuel₁ := by
    omega
  have e₂ : fields.length + missCount (allMsgNames env fields) s * (maxEnvFields env + 1)
      + (fuel₂ - (fields.length
        + missCount (allMsgNames env fields) s * (maxEnvFields env + 1))) = fuel₂ := by
    omega
  rw [← e₁, ← e₂, key _, key _]

theorem typeGraphWalker_terminates_witness :
    walkBound mutualEnv mutualA.fields ≤ 7 ∧
      walkFields mutualEnv 7 mutualA.fields [] = walkFields mutualEnv 9 mutualA.fields [] :=
  ⟨by decide, typeGraphWalker_terminates mutualEnv mutualA.fields [] 7 9 (by decide) (by decide)⟩

/-- C7: the Type Graph Walker is a depth-first pre-order traversal.  A
root whose fields are all scalar contributes nothing (first conjunct, for
every pool, fuel and starting state), and on the example pool the output
is in first-discovery pre-order: the unvisited message referenced by the
first field is appended immediately and its subtree (`ex.D`, then the
enum `ex.E`, which is appended without descent) is fully explored before
the sibling field referencing `ex.C` is processed. -/
theorem typeGraphWalker_preorder :
    (∀ (env : List MessageDef) (fuel : Nat) (fields : List Field) (s : List SrcDesc),
        (∀ f ∈ fields, isScalarKind f.kind = true) → walkFields env fuel fields s = s)
    ∧ walkMessageType exEnv exRoot []
        = [.msgD "ex.B", .msgD "ex.D", .enumD "ex.E", .msgD "ex.C"] :=
  ⟨fun env fuel fields s h => walkFields_all_scalar env fields h fuel s, by decide⟩

theorem typeGraphWalker_preorder_witness :
    walkMessageType exEnv scalarRoot [] = [] :=
  typeGraphWalker_preorder.1 exEnv (walkBound exEnv scalarRoot.fields) scalarRoot.fields []
    (by decide)

/-! ## The Go string order is a total order, and the sorted chain list is
insertion-order independent -/

lemma charsLe_head_le (y z : Char) (ys zs : List Char)
    (h : charsLe (y :: ys) (z :: zs) = true) : y.toNat ≤ z.toNat := by
  simp only [charsLe] at h
  split_ifs at h with h1 h2
  · omega
  · omega

lemma charsLe_total : ∀ a b, charsLe a b = true ∨ charsLe b a = true := by
  intro a
  induction a with
  | nil =>
    intro b
    left
    rfl
  | cons x xs ih =>
    intro b
    cases b with
    | nil =>
      right
      rfl
    | cons y ys =>
      by_cases h1 : x.toNat < y.toNat
      · left
        simp [charsLe, h1]
      · by_cases h2 : y.toNat < x.toNat
        · right
          simp [charsLe, h2]
        · rcases ih ys with h | h
          · left
            simp [charsLe, h1, h2, h]
          · right
            simp [charsLe, h1, h2, h]

lemma charsLe_trans : ∀ a b c, charsLe a b = true → charsLe b c = true →
    charsLe a c = true := by
  intro a
  induction a with
  | nil =>
    intro b c _ _
    rfl
  | cons x xs ih =>
    intro b c hab hbc
    cases b with
    | nil => simp [charsLe] at hab
    | cons y ys =>
      cases c with
      | nil => simp [charsLe] at hbc
      | cons z zs =>
        have hyz := charsLe_head_le y z ys zs hbc
        by_cases h1 : x.toNat < y.toNat
        · have hxz : x.toNat < z.toNat := by omega
          simp [charsLe, hxz]
        · by_cases h2 : y.toNat < x.toNat
          · exfalso
            simp [charsLe, h1, h2] at hab
          · have hab2 : charsLe xs ys = true := by
              simpa [charsLe, h1, h2] using hab
            by_cases h3 : y.toNat < z.toNat
            · have hxz : x.toNat < z.toNat := by omega
              simp [charsLe, hxz]
            · by_cases h4 : z.toNat < y.toNat
              · exfalso
                simp [charsLe, h3, h4] at hbc
              · have hbc2 : charsLe ys zs = true := by
                  simpa [charsLe, h3, h4] using hbc
                have hxz1 : ¬ x.toNat < z.toNat := by omega
                have hxz2 : ¬ z.toNat < x.toNat := by omega
                simp only [charsLe, hxz1, hxz2, if_neg, if_false]
                exact ih ys zs hab2 hbc2

lemma charsLe_antisymm : ∀ a b, charsLe a b = true → charsLe b a = true → a = b := by
  intro a
  induction a with
  | nil =>
    intro b _ hba
    cases b with
    | nil => rfl
    | cons y ys => simp [charsLe] at hba
  | cons x xs ih =>
    intro b hab hba
    cases b with
    | nil => simp [charsLe] at hab
    | cons y ys =>
      have h1 := charsLe_head_le x y xs ys hab
      have h2 := charsLe_head_le y x ys xs hba
      have hxy : x = y := by
        have hval : x.toNat = y.toNat := by omega
        have hv : x.val = y.val := UInt32.toNat.inj hval
        exact Char.ext hv
      subst hxy
      have hxx : ¬ x.toNat < x.toNat := by omega
      have hab2 : charsLe xs ys = true := by simpa [charsLe, hxx] using hab
      have hba2 : charsLe ys xs = true := by simpa [charsLe, hxx] using hba
      rw [ih ys hab2 hba2]

instance : IsTotal String strLeRel :=
  ⟨fun a b => charsLe_total a.data b.data⟩

instance : IsTrans String strLeRel :=
  ⟨fun a b c => charsLe_trans a.data b.data c.data⟩

instance : IsAntisymm String strLeRel :=
  ⟨fun a b hab hba => by
    have h := charsLe_antisymm a.data b.data hab hba
    cases a
    cases b
    exact congrArg String.mk h⟩

/-- C6: the `ChainNotFoundError` message lists the available chain names
sorted lexicographically and comma-joined, independently of the iteration
or insertion order of the registry mapping (first conjunct: the message is
invariant under permutation of the name list), and on the registry
`{foo, bar, baz}` requesting chain `x` it is exactly
`no chain "x" found (available chains: bar, baz, foo)`. -/
theorem chainNotFoundError_sorted :
    (∀ (requested : String) (l₁ l₂ : List String), l₁.Perm l₂ →
        chainNotFoundErrorMsg requested l₁ = chainNotFoundErrorMsg requested l₂)
    ∧ chainNotFoundErrorMsg "x" ["foo", "bar", "baz"]
        = "no chain \"x\" found (available chains: bar, baz, foo)" := by
  constructor
  · intro req l₁ l₂ hperm
    have hs : sortStrings l₁ = sortStrings l₂ :=
      List.eq_of_perm_of_sorted
        (((List.perm_insertionSort strLeRel l₁).trans hperm).trans
          (List.perm_insertionSort strLeRel l₂).symm)
        (List.sorted_insertionSort strLeRel l₁)
        (List.sorted_insertionSort strLeRel l₂)
    unfold chainNotFoundErrorMsg
    rw [hs]
  · decide

theorem chainNotFoundError_sorted_witness :
    chainNotFoundErrorMsg "x" ["foo", "bar", "baz"]
      = chainNotFoundErrorMsg "x" ["baz", "foo", "bar"] :=
  chainNotFoundError_sorted.1 "x" ["foo", "bar", "baz"] ["baz", "foo", "bar"] (by decide)

/-! ## Target exclusivity, method-name validation, service resolution -/

/-- A remote endpoint with a healthy dial and no services. -/
def remoteIdle : Remote :=
  { dialErr := none, resolveErr := none, listSvcs := .ok [], services := [], env := [] }

/-- C5: for every invocation of a dynamic command taking a CHAIN_ID or an
--address target (list-services, list-methods, show-messages), supplying
both a chain argument and a nonempty address flag, or supplying neither,
returns the ambiguous-target error and performs no network call (the
event trace is empty). -/
theorem dynamicCmds_target_exclusive :
    ∀ (cfg : Config) (r : Remote) (addrFlag : String) (args : List String),
      (((addrFlag ≠ "" ∧ args.length = 1) ∨ (addrFlag = "" ∧ args.length = 0)) →
        dynListServicesRunE cfg r addrFlag args
          = (.err (.generic "must provide exactly one of CHAIN_ID or --address flag"), []))
      ∧ (((addrFlag ≠ "" ∧ args.length = 2) ∨ (addrFlag = "" ∧ args.length = 1)) →
        dynListMethodsRunE cfg r addrFlag args
          = (.err (.generic "must provide exactly one of CHAIN_ID or --address flag"), []))
      ∧ (((addrFlag ≠ "" ∧ args.length = 2) ∨ (addrFlag = "" ∧ args.length = 1)) →
        dynShowMessagesRunE cfg r addrFlag args
          = (.err (.generic "must provide exactly one of CHAIN_ID or --address flag"), [])) := by
  intro cfg r addrFlag args
  refine ⟨?_, ?_, ?_⟩
  · rintro (⟨h1, h2⟩ | ⟨h1, h2⟩)
    · simp [dynListServicesRunE, h1, h2]
    · simp [dynListServicesRunE, h1, h2]
  · rintro (⟨h1, h2⟩ | ⟨h1, h2⟩)
    · simp [dynListMethodsRunE, h1, h2]
    · simp [dynListMethodsRunE, h1, h2]
  · rintro (⟨h1, h2⟩ | ⟨h1, h2⟩)
    · simp [dynShowMessagesRunE, h1, h2]
    · simp [dynShowMessagesRunE, h1, h2]

theorem dynamicCmds_target_exclusive_witness :
    dynListServicesRunE ⟨[]⟩ remoteIdle "example.com:9090" ["cosmoshub"]
      = (.err (.generic "must provide exactly one of CHAIN_ID or --address flag"), []) :=
  (dynamicCmds_target_exclusive ⟨[]⟩ remoteIdle "example.com:9090" ["cosmoshub"]).1
    (Or.inl ⟨by decide, rfl⟩)

/-- A remote endpoint whose dial fails, as when no transport security is
configured and the insecure flag is absent. -/
def remoteDialFail : Remote :=
  { dialErr := some "grpc: no transport security set", resolveErr := none,
    listSvcs := .ok [], services := [], env := [] }

/-- C1 counterexample: on the malformed method name "NoDot" the
show-messages operation does not return the invalid-method error before
dialing — it dials first, so with a failing dial the returned error is
the dial error and the network trace is nonempty. -/
theorem showMessages_rejects_before_dial_counterexample :
    dynamicShowMessages remoteDialFail "example.com:9090" "NoDot"
      = (.err (.generic
          "failed to dial gRPC address \"example.com:9090\": grpc: no transport security set"),
         [.dial "example.com:9090"])
    ∧ (dynamicShowMessages remoteDialFail "example.com:9090" "NoDot").2 ≠ ([] : List NetEvent) :=
  ⟨by decide, by decide⟩

/-- C1 (amended): a qualified method name with no namespace separator is
rejected with the "invalid method" error after the dial step but before
any reflection round trip: whenever the dial succeeds, show-messages
returns the malformed-name error and the network trace holds the dial
event only. -/
theorem showMessages_invalid_method_after_dial (r : Remote) (addr method : String)
    (hdial : r.dialErr = none) (hone : (goSplitDot method).length = 1) :
    dynamicShowMessages r addr method
      = (.err (.generic ("invalid method " ++ goQuote method
          ++ ": expected format namespace[.other_namespace...].method")), [.dial addr]) := by
  simp [dynamicShowMessages, dialGRPC, hdial, hone]

theorem showMessages_invalid_method_after_dial_witness :
    dynamicShowMessages remoteIdle "example.com:9090" "NoDot"
      = (.err (.generic ("invalid method " ++ goQuote "NoDot"
          ++ ": expected format namespace[.other_namespace...].method")),
         [.dial "example.com:9090"]) :=
  showMessages_invalid_method_after_dial remoteIdle "example.com:9090" "NoDot" rfl (by decide)

lemma strData_append (a b : String) : (a ++ b).data = a.data ++ b.data := by
  cases a
  cases b
  rfl

lemma strAppend_assoc (a b c : String) : a ++ b ++ c = a ++ (b ++ c) := by
  cases a with
  | mk x =>
  cases b with
  | mk y =>
  cases c with
  | mk z =>
  exact congrArg String.mk (List.append_assoc x y z)

lemma charsLeadWith_append (as bs : List Char) : charsLeadWith as (as ++ bs) = true := by
  induction as with
  | nil => rfl
  | cons a as ih => simp [charsLeadWith, ih]

lemma charsContain_of_leadWith (hay needle : List Char)
    (h : charsLeadWith needle hay = true) : charsContain hay needle = true := by
  cases hay with
  | nil => simpa [charsContain] using h
  | cons c t => simp [charsContain, h]

/-- The not-found error text produced by the reflection client always
matches the substring probe in the Go code. -/
lemma stringsContains_notFound (svc : String) :
    stringsContains ("Service not found: " ++ svc) "Service not found" = true := by
  unfold stringsContains
  rw [strData_append]
  have hdata : ("Service not found: ").data
      = ("Service not found").data ++ (": ").data := by decide
  rw [hdata, List.append_assoc]
  exact charsContain_of_leadWith _ _ (charsLeadWith_append _ _)

/-- C4: when resolving a service fails with the not-found signal, a second
list-services round trip is made; if it succeeds the operation returns
`GRPCServiceNotFoundError` carrying exactly that fresh list, and if it
fails the operation returns the standard wrapped form of the original
resolution error (the not-found error is not masked by the cosmetic
wrapper). -/
theorem listMethods_service_not_found (r : Remote) (addr svcName : String)
    (hdial : r.dialErr = none) (hres : r.resolveErr = none)
    (hfind : r.services.find? (fun d => d.fqn == svcName) = none) :
    (∀ l, r.listSvcs = .ok l →
        dynamicListMethods r addr svcName
          = (.err (.grpcSvcNotFound svcName l), [.dial addr, .resolveSvc svcName, .listSvcs]))
    ∧ (∀ e, r.listSvcs = .error e →
        dynamicListMethods r addr svcName
          = (.err (.generic ("failed to resolve service: Service not found: " ++ svcName)),
             [.dial addr, .resolveSvc svcName, .listSvcs])) := by
  have hcontains := stringsContains_notFound svcName
  constructor
  · intro l hl
    simp [dynamicListMethods, dialGRPC, resolveService, hdial, hres, hfind, hl, hcontains]
  · intro e he
    simp [dynamicListMethods, dialGRPC, resolveService, hdial, hres, hfind, he, hcontains]
    rw [← strAppend_assoc]
    congr 1

/-- A remote advertising one service, on which a different service will be
requested. -/
def remoteOther : Remote :=
  { dialErr := none, resolveErr := none, listSvcs := .ok ["pkg.Other"],
    services := [⟨"pkg.Other", []⟩], env := [] }

theorem listMethods_service_not_found_witness :
    dynamicListMethods remoteOther "addr:1" "pkg.Query"
      = (.err (.grpcSvcNotFound "pkg.Query" ["pkg.Other"]),
         [.dial "addr:1", .resolveSvc "pkg.Query", .listSvcs]) :=
  (listMethods_service_not_found remoteOther "addr:1" "pkg.Query" rfl rfl (by decide)).1
    ["pkg.Other"] rfl

/-! ## The shallow show-messages summary -/

/-- Specification-side field summary for the show-messages operation,
written from the words of the spec: each field maps its external name to
the fully-qualified name of its own message type for message-typed fields, or
to a scalar kind name for primitive fields.  The spec assigns no value to
enum-typed fields (that case is the separate C10 claim), so that arm
carries a dummy value and the refinement theorem is restricted to
enum-free messages. -/
def specFieldTypeName : FieldKind → String
  | .message n => n
  | .scalar tag => tag
  | .enum _ => ""

/-- Specification-side summary of one message type. -/
def specShowSummary (t : MessageDef) : List (String × String) :=
  t.fields.map (fun f => (f.jsonName, specFieldTypeName f.kind))

/-- Is a field enum-typed? -/
def isEnumKind : FieldKind → Bool
  | .enum _ => true
  | _ => false

lemma summarizeFields_eq_spec (t : MessageDef)
    (h : ∀ f ∈ t.fields, isEnumKind f.kind = false) :
    summarizeFields t.fields = specShowSummary t := by
  unfold summarizeFields specShowSummary
  apply List.map_congr_left
  intro f hf
  have hva := h f hf
  cases hk : f.kind with
  | message n => rfl
  | scalar tag => rfl
  | enum n =>
    rw [hk] at hva
    simp [isEnumKind] at hva

/-- C8: on a resolved method, the show-messages output is exactly the
shallow mapping the spec describes — the external (JSON) name of each field
mapped to the fully-qualified name of the referenced message type for
message-typed fields and to the scalar kind name for primitive fields —
computed from the immediate field lists of the input and output types
alone; the network trace shows no further round trips and the Type Graph
Walker is not involved. -/
theorem showMessages_shallow_summary (r : Remote) (addr method sname : String)
    (d : ServiceDef) (m : MethodDef)
    (hdial : r.dialErr = none)
    (hlen : ¬ (goSplitDot method).length = 1)
    (hsname : goJoin "." ((goSplitDot method).take ((goSplitDot method).length - 1)) = sname)
    (hres : resolveService r sname = .ok d)
    (hfindm : d.methods.find? (fun mm => mm.name == (goSplitDot method).getLast?.getD "")
      = some m)
    (hin : ∀ t, m.inputType = some t → ∀ f ∈ t.fields, isEnumKind f.kind = false)
    (hout : ∀ t, m.outputType = some t → ∀ f ∈ t.fields, isEnumKind f.kind = false) :
    dynamicShowMessages r addr method
      = (.ok { input := m.inputType.map specShowSummary,
               output := m.outputType.map specShowSummary },
         [.dial addr, .resolveSvc sname]) := by
  subst hsname
  have hinEq : m.inputType.map (fun t => summarizeFields t.fields)
      = m.inputType.map specShowSummary := by
    cases hmt : m.inputType with
    | none => rfl
    | some t => simp [summarizeFields_eq_spec t (hin t hmt)]
  have houtEq : m.outputType.map (fun t => summarizeFields t.fields)
      = m.outputType.map specShowSummary := by
    cases hmt : m.outputType with
    | none => rfl
    | some t => simp [summarizeFields_eq_spec t (hout t hmt)]
  simp [dynamicShowMessages, dialGRPC, hdial, hlen, hres, hfindm, hinEq, houtEq]

/-- Input type of the witness method: one scalar and one message field. -/
def showInMsg : MessageDef :=
  ⟨"pkg.GetRequest", [⟨"name", .scalar "TYPE_STRING"⟩, ⟨"opts", .message "pkg.Options"⟩]⟩

/-- Output type of the witness method: one message field. -/
def showOutMsg : MessageDef := ⟨"pkg.GetResponse", [⟨"result", .message "pkg.Result"⟩]⟩

def showGetMethod : MethodDef := ⟨"Get", some showInMsg, some showOutMsg⟩

def showSvc : ServiceDef := ⟨"pkg.Svc", [showGetMethod]⟩

def remoteShow : Remote :=
  { dialErr := none, resolveErr := none, listSvcs := .ok ["pkg.Svc"],
    services := [showSvc], env := [] }

theorem showMessages_shallow_summary_witness :
    dynamicShowMessages remoteShow "addr:1" "pkg.Svc.Get"
      = (.ok { input := some (specShowSummary showInMsg),
               output := some (specShowSummary showOutMsg) },
         [.dial "addr:1", .resolveSvc "pkg.Svc"]) :=
  showMessages_shallow_summary remoteShow "addr:1" "pkg.Svc.Get" "pkg.Svc" showSvc showGetMethod
    rfl (by decide) rfl rfl rfl
    (fun t ht => by cases ht; decide) (fun t ht => by cases ht; decide)

/-- C10: in the show-messages field summary an enum-typed field is mapped
to the wire-type tag name "TYPE_ENUM", never to the fully-qualified name
of the enum type. -/
theorem showMessages_enum_field_tag (fields : List Field) (f : Field) (n : String)
    (hmem : f ∈ fields) (hk : f.kind = .enum n) :
    (f.jsonName, "TYPE_ENUM") ∈ summarizeFields fields
    ∧ (n ≠ "TYPE_ENUM" → fieldTypeName f.kind ≠ n) := by
  constructor
  · unfold summarizeFields
    apply List.mem_map.mpr
    refine ⟨f, hmem, ?_⟩
    rw [hk]
    rfl
  · intro hne
    rw [hk]
    simp only [fieldTypeName, typeEnumName]
    exact fun h => hne h.symm

def colorField : Field := ⟨"color", .enum "pkg.Color"⟩

theorem showMessages_enum_field_tag_witness :
    ("color", "TYPE_ENUM") ∈ summarizeFields [colorField]
    ∧ ("pkg.Color" ≠ "TYPE_ENUM" → fieldTypeName colorField.kind ≠ "pkg.Color") :=
  showMessages_enum_field_tag [colorField] colorField "pkg.Color" (by decide) rfl

/-! ## The two nil-dereference crashes (C9) -/

/-- A remote advertising pkg.Svc whose single method is Get. -/
def remoteSvcOnly : Remote :=
  { dialErr := none, resolveErr := none, listSvcs := .ok ["pkg.Svc"],
    services := [⟨"pkg.Svc", [⟨"Get", some ⟨"pkg.In", []⟩, some ⟨"pkg.Out", []⟩⟩]⟩],
    env := [] }

/-- A remote whose service resolution fails at the transport level. -/
def remoteResolveFail : Remote :=
  { dialErr := none, resolveErr := some "transport is closing",
    listSvcs := .ok [], services := [], env := [] }

/-- C9 evaluation: two error conditions of the core are process-fatal
rather than returned as typed errors.  Show-messages on a resolved
service without the requested method reaches `m.GetInputType()` on the
nil result of `FindMethodByName` (cmd/dynamic.go lines 266 and 273), and
inspect on a failed service resolution logs
`svcDesc.GetFullyQualifiedName()` on a nil descriptor (lines 400 and
404); both are nil-pointer dereferences, modelled as the `panicked`
outcome. -/
theorem coreErrors_panic_evaluation :
    dynamicShowMessages remoteSvcOnly "addr:1" "pkg.Svc.Nope"
      = (.panicked, [.dial "addr:1", .resolveSvc "pkg.Svc"])
    ∧ dynamicInspect remoteResolveFail "addr:1" "pkg.Svc" ""
      = (.panicked, [.dial "addr:1", .resolveSvc "pkg.Svc"]) :=
  ⟨by decide, by decide⟩

end LensCmd
